import Mathlib

/-!
# Verification of the erigon-lib temporal state store (state package)

A shallow embedding of the code in `state/domain_committed.go` and
`state/aggregator_v3.go`.  Byte strings are modelled as `List Nat` whose
elements are byte values (`< 256` wherever the Go code produced them via a
`byte` conversion); `uint64`/`uint16` arithmetic is carried out on `Nat`
with explicit `% 2^64` / `% 2^16` where Go overflow semantics matter.
Fallible Go code is modelled by explicit result types; a Go runtime panic
(out-of-range slice access) is modelled as a distinguished outcome.
-/

namespace ErigonState

/-! ## Byte-order primitives (Go standard library `encoding/binary`)

`binary.BigEndian.PutUint64/PutUint16` and `Uint64/Uint16` are external to
the repository; they are modelled by their documented big-endian semantics.
A Go `byte(v)` conversion truncates modulo 256. -/

/-- Big-endian 8-byte encoding of a `uint64` (`binary.BigEndian.PutUint64`). -/
def beBytes8 (v : Nat) : List Nat :=
  [v / 2^56 % 256, v / 2^48 % 256, v / 2^40 % 256, v / 2^32 % 256,
   v / 2^24 % 256, v / 2^16 % 256, v / 2^8 % 256, v % 256]

/-- Big-endian 2-byte encoding of a `uint16` (`binary.BigEndian.PutUint16`). -/
def beBytes2 (v : Nat) : List Nat := [v / 2^8 % 256, v % 256]

/-- Big-endian read of 8 bytes (`binary.BigEndian.Uint64`).  The Go function
panics when fewer than 8 bytes are available; callers below only invoke it
after an explicit length check, so the default branch is unreachable there. -/
def beUint64 : List Nat → Nat
  | b0 :: b1 :: b2 :: b3 :: b4 :: b5 :: b6 :: b7 :: _ =>
      ((((((b0 * 256 + b1) * 256 + b2) * 256 + b3) * 256 + b4) * 256 + b5)
        * 256 + b6) * 256 + b7
  | _ => 0

/-- Big-endian read of 2 bytes (`binary.BigEndian.Uint16`). -/
def beUint16 : List Nat → Nat
  | b0 :: b1 :: _ => b0 * 256 + b1
  | _ => 0

theorem beUint64_beBytes8 (v : Nat) (h : v < 2^64) (rest : List Nat) :
    beUint64 (beBytes8 v ++ rest) = v := by
  simp only [beBytes8, beUint64, List.cons_append, List.nil_append]
  omega

theorem beUint16_beBytes2 (v : Nat) (h : v < 2^16) (rest : List Nat) :
    beUint16 (beBytes2 v ++ rest) = v := by
  simp only [beBytes2, beUint16, List.cons_append, List.nil_append]
  omega

theorem beBytes8_length (v : Nat) : (beBytes8 v).length = 8 := rfl

theorem beBytes2_length (v : Nat) : (beBytes2 v).length = 2 := rfl

/-! ## Short keys (`domain_committed.go`: `encodeU64`, `decodeU64`,
`shortenedKey`, and the encoding side of `replaceKeyWithReference`) -/

/-- `decodeU64` from `domain_committed.go`: folds bytes big-endian,
`i = (i << 8) | uint64(b)` with `uint64` wrap-around. -/
def decodeU64 (from' : List Nat) : Nat :=
  from'.foldl (fun i b => ((i <<< 8) % 2^64) ||| (b % 256)) 0

/-- `encodeU64` from `domain_committed.go`: appends to `to` the minimal
big-endian representation of `i` (1 to 8 bytes); `byte(x)` truncates mod 256. -/
def encodeU64 (i : Nat) (pre : List Nat) : List Nat :=
  if i < 2^8 then pre ++ [i % 256]
  else if i < 2^16 then pre ++ [i / 2^8 % 256, i % 256]
  else if i < 2^24 then pre ++ [i / 2^16 % 256, i / 2^8 % 256, i % 256]
  else if i < 2^32 then pre ++ [i / 2^24 % 256, i / 2^16 % 256, i / 2^8 % 256, i % 256]
  else if i < 2^40 then
    pre ++ [i / 2^32 % 256, i / 2^24 % 256, i / 2^16 % 256, i / 2^8 % 256, i % 256]
  else if i < 2^48 then
    pre ++ [i / 2^40 % 256, i / 2^32 % 256, i / 2^24 % 256, i / 2^16 % 256,
           i / 2^8 % 256, i % 256]
  else if i < 2^56 then
    pre ++ [i / 2^48 % 256, i / 2^40 % 256, i / 2^32 % 256, i / 2^24 % 256,
           i / 2^16 % 256, i / 2^8 % 256, i % 256]
  else
    pre ++ [i / 2^56 % 256, i / 2^48 % 256, i / 2^40 % 256, i / 2^32 % 256,
           i / 2^24 % 256, i / 2^16 % 256, i / 2^8 % 256, i % 256]

/-- `shortenedKey` from `domain_committed.go`: the step is read from the
first two bytes, and the offset is decoded — as in the source — from
`apk[1:]`, i.e. starting at byte index 1.  (`binary.BigEndian.Uint16`
panics for `len(apk) < 2`; the inputs considered here are longer.) -/
def shortenedKey (apk : List Nat) : Nat × Nat :=
  (beUint16 apk, decodeU64 (apk.drop 1))

/-- The short-key bytes built by `replaceKeyWithReference`:
`binary.BigEndian.PutUint16(numBuf[:], step)` followed by
`encodeU64(offset, numBuf[:])`, i.e. the two-byte big-endian step prefix
with the minimal big-endian offset appended. -/
def shortKeyOf (step offset : Nat) : List Nat :=
  encodeU64 offset (beBytes2 step)

/-! ## Commitment state record (`commitmentState.Encode` / `.Decode`) -/

/-- The `commitmentState` struct of `domain_committed.go`. -/
structure commitmentState where
  txNum : Nat
  blockNum : Nat
  trieState : List Nat
  deriving Repr, DecidableEq

/-- Result of running `commitmentState.Decode`: a decoded value, the
`"ivalid commitment state buffer size"` error, or a Go runtime panic from an
out-of-range slice access. -/
inductive DecodeResult where
  | ok (cs : commitmentState)
  | error
  | panic
  deriving Repr, DecidableEq

/-- `commitmentState.Encode`: `txNum` as 8-byte BE, `blockNum` as 8-byte BE,
`uint16(len(trieState))` as 2-byte BE, then the trie-state bytes. -/
def commitmentState.Encode (cs : commitmentState) : List Nat :=
  beBytes8 cs.txNum ++ beBytes8 cs.blockNum ++ beBytes2 cs.trieState.length
    ++ cs.trieState

/-- `commitmentState.Decode`, line for line:
* `len(buf) < 10` → error;
* `binary.BigEndian.Uint64(buf[8:16])` slices out of range when `len(buf) < 16`;
* `binary.BigEndian.Uint16(buf[16:18])` slices out of range when `len(buf) < 18`;
* the `len(trieState) == 0 && len(buf) == 10` early return (unreachable,
  since such a buffer already panicked above);
* `copy(cs.trieState, buf[18:18+trieLen])` slices out of range when
  `18 + trieLen > len(buf)` (capacity is modelled as the length). -/
def commitmentState.Decode (buf : List Nat) : DecodeResult :=
  if buf.length < 10 then .error
  else if buf.length < 16 then .panic
  else if buf.length < 18 then .panic
  else
    let txNum := beUint64 buf
    let blockNum := beUint64 (buf.drop 8)
    let trieLen := beUint16 (buf.drop 16)
    if trieLen = 0 ∧ buf.length = 10 then .ok ⟨txNum, blockNum, []⟩
    else if buf.length < 18 + trieLen then .panic
    else .ok ⟨txNum, blockNum, (buf.drop 18).take trieLen⟩

theorem drop8_beBytes8 (v : Nat) (r : List Nat) : (beBytes8 v ++ r).drop 8 = r := by
  simp [beBytes8]

theorem drop2_beBytes2 (v : Nat) (r : List Nat) : (beBytes2 v ++ r).drop 2 = r := by
  simp [beBytes2]

theorem encode_length (cs : commitmentState) :
    cs.Encode.length = 18 + cs.trieState.length := by
  simp [commitmentState.Encode, beBytes8, beBytes2]; omega

/-- C1: the short-key round trip claimed by the spec fails on the code.  For
file step 1 and offset 0, `replaceKeyWithReference` builds the short key
`[0x00, 0x01, 0x00]` (two-byte big-endian step `1` followed by the minimal
big-endian varlen encoding of `0`), but `shortenedKey` decodes the offset
from byte index 1 (`decodeU64(apk[1:])`), overlapping the low byte of the
step prefix, and returns offset `256` instead of `0`. -/
theorem claim_C1_short_key_roundtrip_fails :
    shortKeyOf 1 0 = [0, 1, 0] ∧
    shortenedKey (shortKeyOf 1 0) = (1, 256) ∧
    shortenedKey (shortKeyOf 1 0) ≠ (1, 0) := by decide

/-- C2: commitment state record round-trip.  For every `commitmentState`
with `len(trieState) < 2^16` (and fields in `uint64` range), `Encode`
produces `txNum_u64_be ++ blockNum_u64_be ++ trieLen_u16_be ++ trieBytes`,
and `Decode` of that encoding recovers the same `txNum`, `blockNum` and
`trieState`. -/
theorem claim_C2_commitment_state_roundtrip (cs : commitmentState)
    (htx : cs.txNum < 2^64) (hbn : cs.blockNum < 2^64)
    (hlen : cs.trieState.length < 2^16) :
    commitmentState.Decode cs.Encode = .ok cs := by
  have e1 : cs.Encode = beBytes8 cs.txNum ++ (beBytes8 cs.blockNum ++
      (beBytes2 cs.trieState.length ++ cs.trieState)) := by
    simp [commitmentState.Encode]
  have hlen18 := encode_length cs
  have hd8 : cs.Encode.drop 8 = beBytes8 cs.blockNum ++
      (beBytes2 cs.trieState.length ++ cs.trieState) := by
    rw [e1, drop8_beBytes8]
  have hd16 : cs.Encode.drop 16 = beBytes2 cs.trieState.length ++ cs.trieState := by
    have : cs.Encode.drop 16 = (cs.Encode.drop 8).drop 8 := by
      rw [List.drop_drop]
    rw [this, hd8, drop8_beBytes8]
  have hd18 : cs.Encode.drop 18 = cs.trieState := by
    have : cs.Encode.drop 18 = (cs.Encode.drop 16).drop 2 := by
      rw [List.drop_drop]
    rw [this, hd16, drop2_beBytes2]
  have hu64 : beUint64 cs.Encode = cs.txNum := by
    rw [e1, beUint64_beBytes8 _ htx]
  have hu64b : beUint64 (cs.Encode.drop 8) = cs.blockNum := by
    rw [hd8, beUint64_beBytes8 _ hbn]
  have hu16 : beUint16 (cs.Encode.drop 16) = cs.trieState.length := by
    rw [hd16, beUint16_beBytes2 _ hlen]
  rw [commitmentState.Decode]
  rw [if_neg (by omega), if_neg (by omega), if_neg (by omega)]
  simp only [hu64, hu64b, hu16, hd18]
  rw [if_neg (by omega), if_neg (by omega), List.take_length]

/-- Witness for C2 at a concrete record. -/
theorem claim_C2_commitment_state_roundtrip_witness :
    commitmentState.Decode (commitmentState.Encode ⟨5, 7, [1, 2, 3]⟩) =
      .ok ⟨5, 7, [1, 2, 3]⟩ :=
  claim_C2_commitment_state_roundtrip ⟨5, 7, [1, 2, 3]⟩ (by decide) (by decide)
    (by decide)

/-- C10: the bounds-safety claim fails on the code.  `Decode` only rejects
buffers shorter than 10 bytes, while its fixed header is 18 bytes: a
12-byte buffer passes the check and `binary.BigEndian.Uint64(buf[8:16])`
slices out of range (a Go panic); likewise an 18-byte buffer whose
`trieLen` field is 5 panics in `copy(cs.trieState, buf[18:23])` instead of
returning an error. -/
theorem claim_C10_decode_bounds_violation :
    commitmentState.Decode (List.replicate 12 0) = .panic ∧
    commitmentState.Decode (beBytes8 5 ++ beBytes8 7 ++ beBytes2 5) = .panic := by
  decide

/-! ## `SeekCommitment` (`domain_committed.go`)

`ctx.Get` (a `Domain` read, external to the provided sources) is abstracted
as an oracle from the two-byte step sub-key to the stored bytes, and
`patriciaTrie.SetState` as a success predicate on the trie-state bytes.
The `d.SetTxNum` calls inside the loop only mutate the domain's current
txNum and do not influence the returned value, so they are not threaded
through the model. -/

/-- Result of one `ctx.Get(keyCommitmentState, stepbuf, d.tx)` call. -/
inductive GetResult where
  | err
  | val (s : List Nat)

/-- Result of the search loop in `SeekCommitment`: normal exit with the
accumulated `(latestTxNum, latestState)`, an early `return 0, err` from a
failed `Get`, or fuel exhaustion (the Go loop is unbounded; `fuelOut` marks
runs longer than the supplied fuel). -/
inductive SeekLoopResult where
  | done (latestTxNum : Nat) (latestState : List Nat)
  | getErr
  | fuelOut

/-- The `for` loop of `SeekCommitment`: read the entry at `step`; stop when
it is shorter than 8 bytes or when its leading `uint64` equals the current
`latestTxNum` with a non-empty `latestState`; otherwise adopt it and move to
step `uint16(v/aggStep) + 1` (`uint16` arithmetic wraps mod `2^16`). -/
def seekLoop (aggStep : Nat) (get : Nat → GetResult) :
    Nat → Nat → Nat → List Nat → SeekLoopResult
  | 0, _, _, _ => .fuelOut
  | fuel + 1, step, latestTxNum, latestState =>
    match get step with
    | .err => .getErr
    | .val s =>
      if s.length < 8 then .done latestTxNum latestState
      else
        let v := beUint64 s
        if v = latestTxNum ∧ latestState ≠ [] then .done latestTxNum latestState
        else seekLoop aggStep get fuel ((v / aggStep % 2^16 + 1) % 2^16) v s

/-- What `SeekCommitment` returns: `(txNum, nil)`, `(0, err)`, a decode
panic, or loop-fuel exhaustion (model artifact). -/
inductive SeekOutcome where
  | ok (txNum : Nat)
  | err
  | panic
  | fuelOut
  deriving Repr, DecidableEq

/-- `SeekCommitment(aggStep, sinceTx)`: starts at step
`uint16(sinceTx/aggStep) - 1` with `latestTxNum = sinceTx - 1` (both with
unsigned wrap-around) and an empty `latestState`, runs the search loop, then
decodes the final `latestState`.  A decode failure yields `return 0, nil` —
in this model literally the same outcome `.ok 0` as a successfully decoded
checkpoint at txNum 0 followed by a successful `SetState`. -/
def SeekCommitment (aggStep sinceTx fuel : Nat) (get : Nat → GetResult)
    (setStateOk : List Nat → Bool) : SeekOutcome :=
  match seekLoop aggStep get fuel ((sinceTx / aggStep % 2^16 + 2^16 - 1) % 2^16)
      ((sinceTx + 2^64 - 1) % 2^64) [] with
  | .fuelOut => .fuelOut
  | .getErr => .err
  | .done _ latestState =>
    match commitmentState.Decode latestState with
    | .error => .ok 0
    | .panic => .panic
    | .ok latest => if setStateOk latest.trieState then .ok latest.txNum else .err

/-- C3: whenever the search loop of `SeekCommitment` terminates and the
decoding of the accumulated latest state fails (in particular when no
checkpoint entry was found, so the state buffer is still empty),
`SeekCommitment` returns `(0, nil)` — the very outcome `.ok 0` produced by a
successfully decoded checkpoint at txNum 0, not a distinguishable error. -/
theorem claim_C3_seek_commitment_decode_failure
    (aggStep sinceTx fuel : Nat) (get : Nat → GetResult)
    (setStateOk : List Nat → Bool) (ltx : Nat) (ls : List Nat)
    (hloop : seekLoop aggStep get fuel
        ((sinceTx / aggStep % 2^16 + 2^16 - 1) % 2^16)
        ((sinceTx + 2^64 - 1) % 2^64) [] = .done ltx ls)
    (hdec : commitmentState.Decode ls = .error) :
    SeekCommitment aggStep sinceTx fuel get setStateOk = .ok 0 := by
  unfold SeekCommitment
  rw [hloop]
  simp only [hdec]

/-- Witness for C3: an empty store (every `Get` finds nothing) makes the
loop stop immediately with an empty state buffer, which fails to decode. -/
theorem claim_C3_seek_commitment_decode_failure_witness :
    SeekCommitment 1 1 1 (fun _ => .val []) (fun _ => true) = .ok 0 :=
  claim_C3_seek_commitment_decode_failure 1 1 1 (fun _ => .val [])
    (fun _ => true) 0 [] rfl rfl

/-! ## Touch accumulator (`domain_committed.go`: `TouchPlainKey`,
`TouchPlainKeyAccount`, `TouchedKeyList`, `ComputeCommitment`)

The `commitment` package (flag constants, `Update`, the hex-patricia trie)
is external to the provided sources; flags are modelled as distinct bits and
trie operations as oracles.  The btree keyed by `commitmentItemLess`
(lexicographic `bytes.Compare` on `hashedKey`) is modelled as a sorted
association list. -/

/-- Modelled from the spec: the update flag bits (CODE, DELETE, BALANCE,
NONCE, STORAGE) of the external commitment package, as distinct bits. -/
def CODE_UPDATE : Nat := 1

def DELETE_UPDATE : Nat := 2

def BALANCE_UPDATE : Nat := 4

def NONCE_UPDATE : Nat := 8

def STORAGE_UPDATE : Nat := 16

/-- The external `commitment.Update` structure, reduced to the fields the
touch logic reads or writes. `codeHashOrStorage` models the fixed
`[32]byte` array (its Go zero value is 32 zero bytes). -/
structure Update where
  flags : Nat
  balance : Nat
  nonce : Nat
  codeHashOrStorage : List Nat
  valLength : Nat
  deriving Repr, DecidableEq

/-- Go zero value of `commitment.Update`. -/
def Update.zero : Update := ⟨0, 0, 0, List.replicate 32 0, 0⟩

/-- Modelled from the spec: `commitment.Update.DecodeForStorage` (external)
decodes the account value into the balance and nonce of the update; the
concrete decoders are abstracted as the parameters `decBal` and `decNonce`. -/
def Update.DecodeForStorage (decBal decNonce : List Nat → Nat) (u : Update)
    (val : List Nat) : Update :=
  { u with balance := decBal val, nonce := decNonce val }

/-- `CommitmentItem` from `domain_committed.go`. -/
structure CommitmentItem where
  plainKey : List Nat
  hashedKey : List Nat
  update : Update
  deriving Repr, DecidableEq

/-- Go `copy(dst, src)`: overwrites the first `min(len dst, len src)`
entries of `dst` with those of `src`. -/
def goCopy (dst src : List Nat) : List Nat :=
  src.take (min dst.length src.length) ++ dst.drop (min dst.length src.length)

/-- Go `bytes.Compare`: lexicographic comparison, a strict prefix sorts
first.  `commitmentItemLess i j = bytes.Compare(i.hashedKey, j.hashedKey) < 0`. -/
def bytesCompare : List Nat → List Nat → Ordering
  | [], [] => .eq
  | [], _ :: _ => .lt
  | _ :: _, [] => .gt
  | a :: as, b :: bs => if a < b then .lt else if b < a then .gt else bytesCompare as bs

theorem bytesCompare_self (a : List Nat) : bytesCompare a a = .eq := by
  induction a with
  | nil => rfl
  | cons x xs ih => simp [bytesCompare, ih]

theorem bytesCompare_eq_iff (a b : List Nat) : bytesCompare a b = .eq ↔ a = b := by
  induction a generalizing b with
  | nil => cases b <;> simp [bytesCompare]
  | cons x xs ih =>
    cases b with
    | nil => simp [bytesCompare]
    | cons y ys =>
      simp only [bytesCompare]
      by_cases h1 : x < y
      · simp [h1]; omega
      · by_cases h2 : y < x
        · simp [h1, h2]; omega
        · have : x = y := by omega
          simp [h1, h2, this, ih]

/-- `btree.Get` with a probe item carrying the looked-up `hashedKey`:
returns the stored item whose `hashedKey` is equal under `bytes.Compare`. -/
def treeGet (l : List CommitmentItem) (h : List Nat) : Option CommitmentItem :=
  match l with
  | [] => none
  | x :: xs => match bytesCompare h x.hashedKey with
    | .eq => some x
    | _ => treeGet xs h

/-- `btree.ReplaceOrInsert` on the ordered accumulator: replaces the item
with an equal `hashedKey` or inserts at the sorted position. -/
def replaceOrInsert (c : CommitmentItem) : List CommitmentItem → List CommitmentItem
  | [] => [c]
  | x :: xs => match bytesCompare c.hashedKey x.hashedKey with
    | .lt => c :: x :: xs
    | .eq => c :: xs
    | .gt => x :: replaceOrInsert c xs

theorem treeGet_replaceOrInsert (c : CommitmentItem) (l : List CommitmentItem) :
    treeGet (replaceOrInsert c l) c.hashedKey = some c := by
  induction l with
  | nil => simp [replaceOrInsert, treeGet, bytesCompare_self]
  | cons x xs ih =>
    simp only [replaceOrInsert]
    rcases hcmp : bytesCompare c.hashedKey x.hashedKey with _ | _ | _
    · simp [treeGet, bytesCompare_self]
    · simp [treeGet, bytesCompare_self]
    · simp only [treeGet, hcmp, ih]

/-- `nibblized`: each byte becomes its high and low 4-bit nibbles. -/
def nibblize : List Nat → List Nat
  | [] => []
  | b :: bs => ((b >>> 4) &&& 15) :: (b &&& 15) :: nibblize bs

/-- `hashAndNibblizeKey`: keccak of the first 20 bytes (`length.Addr`) into
a 32-byte buffer; when further bytes follow (a storage key), keccak of the
rest into a second 32-byte half; then nibblization.  `keccak` (sha3,
external) is abstracted as the digest function; Go `key[:20]` panics for
shorter keys — callers pass 20-byte addresses or 20+32-byte storage keys. -/
def hashAndNibblizeKey (keccak : List Nat → List Nat) (key : List Nat) : List Nat :=
  let hashedKey := goCopy (List.replicate 32 0) (keccak (key.take 20))
  let hashedKey :=
    if 0 < (key.drop 20).length then
      hashedKey ++ goCopy (List.replicate 32 0) (keccak (key.drop 20))
    else hashedKey
  nibblize hashedKey

/-- The fields of `DomainCommitted` that the touch accumulator logic uses:
the mode (a Go `uint`: 0 = Disabled, 1 = Direct, 2 = Update, anything else
invalid) and the ordered accumulator `commTree`. -/
structure DomainCommitted where
  mode : Nat
  commTree : List CommitmentItem
  deriving Repr, DecidableEq

/-- `TouchPlainKeyAccount`: empty value means delete; otherwise decode the
account value, set BALANCE|NONCE, and when the pre-existing accumulator
entry for the same hashed key carries CODE_UPDATE, keep that flag bit and
copy the earlier code hash. -/
def TouchPlainKeyAccount (decBal decNonce : List Nat → Nat)
    (d : DomainCommitted) (c : CommitmentItem) (val : List Nat) :
    CommitmentItem :=
  if val.length = 0 then
    { c with update := { c.update with flags := DELETE_UPDATE } }
  else
    let u := Update.DecodeForStorage decBal decNonce c.update val
    let u := { u with flags := BALANCE_UPDATE ||| NONCE_UPDATE }
    match treeGet d.commTree c.hashedKey with
    | none => { c with update := u }
    | some item =>
      if item.update.flags &&& CODE_UPDATE ≠ 0 then
        { c with update := { u with
            flags := u.flags ||| CODE_UPDATE,
            codeHashOrStorage :=
              goCopy u.codeHashOrStorage item.update.codeHashOrStorage } }
      else { c with update := u }

/-- `TouchPlainKey`: no-op when the mode is Disabled; builds the item with
the hashed-and-nibblized key; applies the per-key callback only when the
mode is strictly greater than Direct; then `ReplaceOrInsert`. -/
def TouchPlainKey (keccak : List Nat → List Nat) (d : DomainCommitted)
    (key val : List Nat)
    (fn : DomainCommitted → CommitmentItem → List Nat → CommitmentItem) :
    DomainCommitted :=
  if d.mode = 0 then d
  else
    let c : CommitmentItem :=
      { plainKey := key, hashedKey := hashAndNibblizeKey keccak key
        update := Update.zero }
    let c := if 1 < d.mode then fn d c val else c
    { d with commTree := replaceOrInsert c d.commTree }

/-- `TouchedKeyList`: ascends the accumulator collecting plain keys, hashed
keys and updates in `hashedKey` order, then `commTree.Clear(true)`. -/
def TouchedKeyList (d : DomainCommitted) :
    (List (List Nat) × List (List Nat) × List Update) × DomainCommitted :=
  ((d.commTree.map (·.plainKey), d.commTree.map (·.hashedKey),
    d.commTree.map (·.update)),
   { d with commTree := [] })

/-- The hex-patricia trie operations used by `ComputeCommitment`
(`RootHash`, `ReviewKeys`, `ProcessUpdates`; external commitment package),
abstracted as oracles that may fail. -/
structure TrieOracle where
  rootHash : Except Unit (List Nat)
  reviewKeys : List (List Nat) → List (List Nat) →
    Except Unit (List Nat × List (List Nat × List Nat))
  processUpdates : List (List Nat) → List (List Nat) → List Update →
    Except Unit (List Nat × List (List Nat × List Nat))

/-- What `ComputeCommitment` returns: `(rootHash, branchNodeUpdates, nil)`
or an error (from the trie, or the `invalid commitment mode` error). -/
inductive CCOutcome where
  | ok (rootHash : List Nat) (branchUpdates : Option (List (List Nat × List Nat)))
  | err
  deriving Repr, DecidableEq

/-- `ComputeCommitment(trace)`: drains the accumulator via `TouchedKeyList`
(this is the single state mutation — every return site below carries the
drained state), then: empty touch list → just the trie root hash; Direct →
`ReviewKeys`; Update → `ProcessUpdates`; any other mode → the
`invalid commitment mode` error.  (`patriciaTrie.Reset()` and
`SetTrace(trace)` only mutate the external trie.) -/
def ComputeCommitment (trie : TrieOracle) (d : DomainCommitted)
    (trace : Bool) : CCOutcome × DomainCommitted :=
  let r := TouchedKeyList d
  let touchedKeys := r.1.1
  let hashedKeys := r.1.2.1
  let updates := r.1.2.2
  let outcome : CCOutcome :=
    if touchedKeys.length = 0 then
      match trie.rootHash with
      | .ok h => .ok h none
      | .error _ => .err
    else
      match d.mode with
      | 1 =>
        match trie.reviewKeys touchedKeys hashedKeys with
        | .ok (h, bu) => .ok h (some bu)
        | .error _ => .err
      | 2 =>
        match trie.processUpdates touchedKeys hashedKeys updates with
        | .ok (h, bu) => .ok h (some bu)
        | .error _ => .err
      | _ => .err
  (outcome, r.2)

/-- C4: after any call to `ComputeCommitment` the touch accumulator
`commTree` is empty — for every mode (Disabled, Direct, Update, or an
invalid value), every trie-oracle behaviour (success or error), and every
starting accumulator: the drain performed by `TouchedKeyList` at the top of
the function always clears the accumulated touches. -/
theorem claim_C4_compute_commitment_drains_accumulator
    (trie : TrieOracle) (d : DomainCommitted) (trace : Bool) :
    (ComputeCommitment trie d trace).2.commTree = [] := rfl

/-- C5: in Update mode, an account touch with non-empty value on a hashed
key whose existing accumulator entry carries CODE_UPDATE produces an entry
whose flags contain BALANCE_UPDATE, NONCE_UPDATE and CODE_UPDATE and whose
code hash equals that of the pre-existing entry (its `[32]byte` code-hash
array is copied wholesale).  `keccak` and the account-value decoders are
the abstracted external functions. -/
theorem claim_C5_account_touch_merges_code_flag (keccak : List Nat → List Nat)
    (decBal decNonce : List Nat → Nat) (d : DomainCommitted)
    (key val : List Nat) (e : CommitmentItem)
    (hmode : d.mode = 2) (hval : val ≠ [])
    (hget : treeGet d.commTree (hashAndNibblizeKey keccak key) = some e)
    (hcode : e.update.flags &&& CODE_UPDATE ≠ 0)
    (hlen32 : e.update.codeHashOrStorage.length = 32) :
    ∃ c, treeGet (TouchPlainKey keccak d key val
        (TouchPlainKeyAccount decBal decNonce)).commTree
        (hashAndNibblizeKey keccak key) = some c ∧
      c.update.flags &&& BALANCE_UPDATE ≠ 0 ∧
      c.update.flags &&& NONCE_UPDATE ≠ 0 ∧
      c.update.flags &&& CODE_UPDATE ≠ 0 ∧
      c.update.codeHashOrStorage = e.update.codeHashOrStorage := by
  have hval' : ¬(val.length = 0) := by simpa using hval
  simp only [TouchPlainKey, TouchPlainKeyAccount, hmode]
  norm_num
  simp only [hval', if_false, hget]
  rw [if_neg hval, if_neg hcode]
  refine ⟨_, treeGet_replaceOrInsert _ _, ?_, ?_, ?_, ?_⟩
  · show (BALANCE_UPDATE ||| NONCE_UPDATE ||| CODE_UPDATE) &&& BALANCE_UPDATE ≠ 0
    decide
  · show (BALANCE_UPDATE ||| NONCE_UPDATE ||| CODE_UPDATE) &&& NONCE_UPDATE ≠ 0
    decide
  · show (BALANCE_UPDATE ||| NONCE_UPDATE ||| CODE_UPDATE) &&& CODE_UPDATE ≠ 0
    decide
  · simp [Update.DecodeForStorage, Update.zero, goCopy, hlen32]

/-- A concrete accumulator entry for the C5 witness: a code touch (flag
CODE_UPDATE, code hash 32 × `7`) on the all-zero 20-byte address. -/
def sampleCodeItem : CommitmentItem :=
  ⟨List.replicate 20 0,
   hashAndNibblizeKey (fun _ => List.replicate 32 0) (List.replicate 20 0),
   ⟨CODE_UPDATE, 0, 0, List.replicate 32 7, 0⟩⟩

/-- Witness for C5: touching the same address with account value `[1]` in
Update mode on an accumulator holding `sampleCodeItem`. -/
theorem claim_C5_account_touch_merges_code_flag_witness :
    ∃ c, treeGet (TouchPlainKey (fun _ => List.replicate 32 0)
        ⟨2, [sampleCodeItem]⟩ (List.replicate 20 0) [1]
        (TouchPlainKeyAccount (fun _ => 0) (fun _ => 0))).commTree
        (hashAndNibblizeKey (fun _ => List.replicate 32 0)
          (List.replicate 20 0)) = some c ∧
      c.update.flags &&& BALANCE_UPDATE ≠ 0 ∧
      c.update.flags &&& NONCE_UPDATE ≠ 0 ∧
      c.update.flags &&& CODE_UPDATE ≠ 0 ∧
      c.update.codeHashOrStorage = sampleCodeItem.update.codeHashOrStorage :=
  claim_C5_account_touch_merges_code_flag (fun _ => List.replicate 32 0)
    (fun _ => 0) (fun _ => 0) ⟨2, [sampleCodeItem]⟩ (List.replicate 20 0) [1]
    sampleCodeItem rfl (by decide) (by rfl) (by decide) (by decide)

/-! ## AggregatorV3 (`aggregator_v3.go`)

The per-component types (`History`, `InvertedIndex`) live outside the
provided sources; a component is abstracted as its live file list (opaque
`[startTxNum, endTxNum)` spans) together with its `endTxNumMinimax()`
value.  Aggregator fields are the `uint64` counters the claimed functions
read. -/

/-- One aggregator component (accounts, storage, code, or one of the four
inverted indices), as seen by the aggregator. -/
structure Component where
  files : List (Nat × Nat)
  endTxNumMinimax : Nat
  deriving Repr, DecidableEq

/-- The `AggregatorV3` fields used by the claims: the atomic counters
`txNum` and `maxTxNum`, the configuration `aggregationStep` / `keepInDB`,
the seven components, and the `working` guard flags. -/
structure AggregatorV3 where
  txNum : Nat
  maxTxNum : Nat
  aggregationStep : Nat
  keepInDB : Nat
  accounts : Component
  storage : Component
  code : Component
  logAddrs : Component
  logTopics : Component
  tracesFrom : Component
  tracesTo : Component
  working : Bool
  workingMerge : Bool
  deriving Repr, DecidableEq

/-- `recalcMaxTxNum`: the sequential chained-minimum over the seven
components' `endTxNumMinimax()`, stored into `maxTxNum`. -/
def recalcMaxTxNum (a : AggregatorV3) : AggregatorV3 :=
  let min0 := a.accounts.endTxNumMinimax
  let min1 := if a.storage.endTxNumMinimax < min0 then a.storage.endTxNumMinimax else min0
  let min2 := if a.code.endTxNumMinimax < min1 then a.code.endTxNumMinimax else min1
  let min3 := if a.logAddrs.endTxNumMinimax < min2 then a.logAddrs.endTxNumMinimax else min2
  let min4 := if a.logTopics.endTxNumMinimax < min3 then a.logTopics.endTxNumMinimax else min3
  let min5 := if a.tracesFrom.endTxNumMinimax < min4 then a.tracesFrom.endTxNumMinimax else min4
  let min6 := if a.tracesTo.endTxNumMinimax < min5 then a.tracesTo.endTxNumMinimax else min5
  { a with maxTxNum := min6 }

/-- `integrateFiles(sf, txNumFrom, txNumTo)`: each component integrates its
new static files (that per-component step is outside the provided sources
and abstracted as the seven updated components), then `recalcMaxTxNum`. -/
def integrateFiles (a : AggregatorV3)
    (acc sto cod la lt tf tt' : Component) : AggregatorV3 :=
  recalcMaxTxNum { a with
    accounts := acc, storage := sto, code := cod, logAddrs := la,
    logTopics := lt, tracesFrom := tf, tracesTo := tt' }

/-- C7: after `recalcMaxTxNum` (run at the end of `ReopenFiles` and — via
`integrateFiles` — of every file integration), `maxTxNum` equals the
minimum of `endTxNumMinimax()` over all seven components. -/
theorem claim_C7_max_tx_num_is_component_minimum (a : AggregatorV3) :
    (recalcMaxTxNum a).maxTxNum =
      min a.accounts.endTxNumMinimax (min a.storage.endTxNumMinimax
        (min a.code.endTxNumMinimax (min a.logAddrs.endTxNumMinimax
          (min a.logTopics.endTxNumMinimax
            (min a.tracesFrom.endTxNumMinimax a.tracesTo.endTxNumMinimax))))) := by
  simp only [recalcMaxTxNum]
  split_ifs <;> omega

/-- `BuildFiles`: the threshold guard `txNum+1 <= maxTxNum + S + keepInDB`
(Go `uint64` comparison, hence the `% 2^64`) returns `nil` at once; the
collate/build/integrate loop past the guard touches the DB and filesystem
and is abstracted as `doBuild`. -/
def BuildFiles (doBuild : AggregatorV3 → AggregatorV3 × Option Unit)
    (a : AggregatorV3) : AggregatorV3 × Option Unit :=
  if (a.txNum + 1) % 2^64 ≤ (a.maxTxNum + a.aggregationStep + a.keepInDB) % 2^64
  then (a, none)
  else doBuild a

/-- `BuildFilesInBackground`: the same threshold guard returns `nil` at
once; then the `working` claim is checked and, when free, taken before the
build goroutine (abstracted as `spawn`) is launched; the synchronous call
returns `nil` in every branch. -/
def BuildFilesInBackground (spawn : AggregatorV3 → AggregatorV3)
    (a : AggregatorV3) : AggregatorV3 × Option Unit :=
  if (a.txNum + 1) % 2^64 ≤ (a.maxTxNum + a.aggregationStep + a.keepInDB) % 2^64
  then (a, none)
  else if a.working then (a, none)
  else (spawn { a with working := true }, none)

/-- C6: whenever `txNum + 1 <= maxTxNum + aggregationStep + keepInDB` (with
the sum inside `uint64` range), both `BuildFiles` and
`BuildFilesInBackground` return `nil` immediately with the aggregator state
— in particular every component's live file set and `maxTxNum` — unchanged,
whatever the abstracted build bodies would do. -/
theorem claim_C6_build_threshold_noop
    (doBuild : AggregatorV3 → AggregatorV3 × Option Unit)
    (spawn : AggregatorV3 → AggregatorV3) (a : AggregatorV3)
    (h1 : a.txNum + 1 ≤ a.maxTxNum + a.aggregationStep + a.keepInDB)
    (h2 : a.maxTxNum + a.aggregationStep + a.keepInDB < 2^64) :
    BuildFiles doBuild a = (a, none) ∧
    BuildFilesInBackground spawn a = (a, none) := by
  have hg : (a.txNum + 1) % 2^64 ≤
      (a.maxTxNum + a.aggregationStep + a.keepInDB) % 2^64 := by
    rw [Nat.mod_eq_of_lt (by omega), Nat.mod_eq_of_lt h2]
    exact h1
  exact ⟨by unfold BuildFiles; rw [if_pos hg],
         by unfold BuildFilesInBackground; rw [if_pos hg]⟩

/-- A small concrete aggregator below the build threshold, for the C6
witness. -/
def idleAggregator : AggregatorV3 :=
  { txNum := 10, maxTxNum := 8, aggregationStep := 4, keepInDB := 8,
    accounts := ⟨[(0, 8)], 8⟩, storage := ⟨[(0, 8)], 8⟩,
    code := ⟨[(0, 8)], 8⟩, logAddrs := ⟨[(0, 8)], 8⟩,
    logTopics := ⟨[(0, 8)], 8⟩, tracesFrom := ⟨[(0, 8)], 8⟩,
    tracesTo := ⟨[(0, 8)], 8⟩, working := false, workingMerge := false }

/-- Witness for C6 at `idleAggregator` (11 ≤ 8 + 4 + 8). -/
theorem claim_C6_build_threshold_noop_witness :
    BuildFiles (fun a => (a, none)) idleAggregator = (idleAggregator, none) ∧
    BuildFilesInBackground id idleAggregator = (idleAggregator, none) :=
  claim_C6_build_threshold_noop (fun a => (a, none)) id idleAggregator
    (by decide) (by decide)

/-- One `AggregatorStep`: the pairing of the i-th accounts, storage and
code `HistoryStep`s; the step handles themselves are opaque (`α`). -/
structure AggregatorStep (α : Type) where
  accounts : α
  storage : α
  code : α
  deriving Repr, DecidableEq

/-- Inputs of `MakeSteps` produced outside the provided sources: the three
`endIndexedTxNumMinimax()` values and the three `History.MakeSteps(to)`
results, abstracted as functions of the computed `to` bound. -/
structure MakeStepsEnv (α : Type) where
  accountsIndexedMax : Nat
  storageIndexedMax : Nat
  codeIndexedMax : Nat
  accountsMakeSteps : Nat → List α
  storageMakeSteps : Nat → List α
  codeMakeSteps : Nat → List α

/-- The `to` bound computed by `MakeSteps`: `maxTxNum`, clamped to
`cmp.Min(cmp.Min(accounts, storage), code)` of the indexed maxima when they
differ from it. -/
def stepsTo {α : Type} (maxTxNum : Nat) (env : MakeStepsEnv α) : Nat :=
  let indexedMax :=
    min (min env.accountsIndexedMax env.storageIndexedMax) env.codeIndexedMax
  if maxTxNum ≠ indexedMax then min maxTxNum indexedMax else maxTxNum

/-- The pairing loop of `MakeSteps`:
`steps[i] = {accounts: accountSteps[i], storage: storageSteps[i], code: codeSteps[i]}`. -/
def zipSteps {α : Type} : List α → List α → List α → List (AggregatorStep α)
  | a :: as, s :: ss, c :: cs => ⟨a, s, c⟩ :: zipSteps as ss cs
  | _, _, _ => []

/-- `AggregatorV3.MakeSteps`: unequal step counts across
accounts/storage/code yield the `different limit of steps` error carrying
the three counts; otherwise the i-th steps are paired. -/
def MakeSteps {α : Type} (maxTxNum : Nat) (env : MakeStepsEnv α) :
    Except (Nat × Nat × Nat) (List (AggregatorStep α)) :=
  let accountSteps := env.accountsMakeSteps (stepsTo maxTxNum env)
  let codeSteps := env.codeMakeSteps (stepsTo maxTxNum env)
  let storageSteps := env.storageMakeSteps (stepsTo maxTxNum env)
  if accountSteps.length ≠ storageSteps.length ∨
      storageSteps.length ≠ codeSteps.length then
    .error (accountSteps.length, storageSteps.length, codeSteps.length)
  else
    .ok (zipSteps accountSteps storageSteps codeSteps)

theorem zipSteps_length {α : Type} (as ss cs : List α)
    (h1 : as.length = ss.length) (h2 : ss.length = cs.length) :
    (zipSteps as ss cs).length = as.length := by
  induction as generalizing ss cs with
  | nil => cases ss <;> cases cs <;> simp [zipSteps]
  | cons a as ih =>
    cases ss with
    | nil => simp at h1
    | cons s ss =>
      cases cs with
      | nil => simp at h2
      | cons c cs =>
        simp only [zipSteps, List.length_cons]
        rw [ih ss cs (by simpa using h1) (by simpa using h2)]

theorem zipSteps_get? {α : Type} (as ss cs : List α)
    (h1 : as.length = ss.length) (h2 : ss.length = cs.length) (i : Nat) :
    (zipSteps as ss cs).get? i =
      match as.get? i, ss.get? i, cs.get? i with
      | some a, some s, some c => some ⟨a, s, c⟩
      | _, _, _ => none := by
  induction as generalizing ss cs i with
  | nil =>
    cases ss with
    | nil =>
      cases cs with
      | nil => simp [zipSteps]
      | cons c cs => simp at h2
    | cons s ss => simp at h1
  | cons a as ih =>
    cases ss with
    | nil => simp at h1
    | cons s ss =>
      cases cs with
      | nil => simp at h2
      | cons c cs =>
        cases i with
        | zero => simp [zipSteps]
        | succ j =>
          simp only [zipSteps, List.get?_cons_succ]
          exact ih ss cs (by simpa using h1) (by simpa using h2) j

/-- C8: `MakeSteps` errors — with the three per-step snapshot counts as the
error payload — exactly when the accounts/storage/code step counts are not
all equal, and otherwise returns exactly one `AggregatorStep` per step,
pairing the i-th accounts, storage and code steps. -/
theorem claim_C8_make_steps_alignment {α : Type} (maxTxNum : Nat) (env : MakeStepsEnv α) :
    ((∃ e, MakeSteps maxTxNum env = .error e) ↔
      ¬((env.accountsMakeSteps (stepsTo maxTxNum env)).length =
          (env.storageMakeSteps (stepsTo maxTxNum env)).length ∧
        (env.storageMakeSteps (stepsTo maxTxNum env)).length =
          (env.codeMakeSteps (stepsTo maxTxNum env)).length)) ∧
    (∀ e, MakeSteps maxTxNum env = .error e →
      e = ((env.accountsMakeSteps (stepsTo maxTxNum env)).length,
           (env.storageMakeSteps (stepsTo maxTxNum env)).length,
           (env.codeMakeSteps (stepsTo maxTxNum env)).length)) ∧
    (∀ steps, MakeSteps maxTxNum env = .ok steps →
      steps.length = (env.accountsMakeSteps (stepsTo maxTxNum env)).length ∧
      ∀ i, steps.get? i =
        match (env.accountsMakeSteps (stepsTo maxTxNum env)).get? i,
              (env.storageMakeSteps (stepsTo maxTxNum env)).get? i,
              (env.codeMakeSteps (stepsTo maxTxNum env)).get? i with
        | some x, some y, some z => some ⟨x, y, z⟩
        | _, _, _ => none) := by
  by_cases hc : (env.accountsMakeSteps (stepsTo maxTxNum env)).length ≠
      (env.storageMakeSteps (stepsTo maxTxNum env)).length ∨
      (env.storageMakeSteps (stepsTo maxTxNum env)).length ≠
      (env.codeMakeSteps (stepsTo maxTxNum env)).length
  · have hms : MakeSteps maxTxNum env =
        .error ((env.accountsMakeSteps (stepsTo maxTxNum env)).length,
                (env.storageMakeSteps (stepsTo maxTxNum env)).length,
                (env.codeMakeSteps (stepsTo maxTxNum env)).length) := by
      unfold MakeSteps
      rw [if_pos hc]
    refine ⟨?_, ?_, ?_⟩
    · constructor
      · intro _
        tauto
      · intro _
        exact ⟨_, hms⟩
    · intro e he
      rw [hms] at he
      injection he with h
      exact h.symm
    · intro steps hok
      rw [hms] at hok
      exact absurd hok (by simp)
  · push_neg at hc
    obtain ⟨h1, h2⟩ := hc
    have hms : MakeSteps maxTxNum env =
        .ok (zipSteps (env.accountsMakeSteps (stepsTo maxTxNum env))
          (env.storageMakeSteps (stepsTo maxTxNum env))
          (env.codeMakeSteps (stepsTo maxTxNum env))) := by
      unfold MakeSteps
      rw [if_neg (by tauto)]
    refine ⟨?_, ?_, ?_⟩
    · constructor
      · rintro ⟨e, he⟩
        rw [hms] at he
        exact absurd he (by simp)
      · intro h
        exact absurd ⟨h1, h2⟩ h
    · intro e he
      rw [hms] at he
      exact absurd he (by simp)
    · intro steps hok
      rw [hms] at hok
      have hsteps : steps = zipSteps (env.accountsMakeSteps (stepsTo maxTxNum env))
          (env.storageMakeSteps (stepsTo maxTxNum env))
          (env.codeMakeSteps (stepsTo maxTxNum env)) := by
        simpa using hok.symm
      subst hsteps
      exact ⟨zipSteps_length _ _ _ h1 h2, fun i => zipSteps_get? _ _ _ h1 h2 i⟩

/-- A concrete, aligned environment for the C8 witness: two steps in each
of accounts, storage and code. -/
def sampleStepsEnv : MakeStepsEnv Nat :=
  { accountsIndexedMax := 8, storageIndexedMax := 8, codeIndexedMax := 8,
    accountsMakeSteps := fun _ => [1, 2], storageMakeSteps := fun _ => [4, 5],
    codeMakeSteps := fun _ => [7, 8] }

/-- Witness for C8: with aligned counts, `MakeSteps` does not error. -/
theorem claim_C8_make_steps_alignment_witness :
    ¬∃ e, MakeSteps 8 sampleStepsEnv = Except.error e :=
  fun h =>
    absurd (by decide) ((claim_C8_make_steps_alignment 8 sampleStepsEnv).1.mp h)

/-- One history row in the MDB (a `(txNum, key, prevValue)` change point). -/
structure HistoryRow where
  txNum : Nat
  k : List Nat
  v : List Nat
  deriving Repr, DecidableEq

/-- One inverted-index row in the MDB (a `(txNum, key)` touch). -/
structure IndexRow where
  txNum : Nat
  k : List Nat
  deriving Repr, DecidableEq

/-- Modelled from the spec: `History.pruneF(txFrom, txTo, f)` (history.go is
not among the provided sources) deletes the history rows with
`txFrom ≤ txNum < txTo` and feeds each of them to `f` — spec §4.4: "it
streams all history rows with txNum ≥ txUnwindTo through the supplied
loader".  Returns the remaining rows and the streamed `(k, v)` pairs. -/
def pruneF (txFrom txTo : Nat) (rows : List HistoryRow) :
    List HistoryRow × List (List Nat × List Nat) :=
  (rows.filter (fun r => !(txFrom ≤ r.txNum && r.txNum < txTo)),
   (rows.filter (fun r => txFrom ≤ r.txNum && r.txNum < txTo)).map
     (fun r => (r.k, r.v)))

/-- Modelled from the spec: `InvertedIndex.prune(txFrom, txTo, limit)`
(inverted_index.go is not among the provided sources) deletes up to `limit`
rows with `txFrom ≤ txNum < txTo` — spec §4.1. -/
def prune (txFrom txTo limit : Nat) : List IndexRow → List IndexRow
  | [] => []
  | r :: rs =>
    if txFrom ≤ r.txNum ∧ r.txNum < txTo then
      if limit = 0 then r :: rs
      else prune txFrom txTo (limit - 1) rs
    else r :: prune txFrom txTo limit rs

/-- The MDB rows of the components `Unwind` touches. -/
structure MdbState where
  accountsHist : List HistoryRow
  storageHist : List HistoryRow
  logAddrs : List IndexRow
  logTopics : List IndexRow
  tracesFrom : List IndexRow
  tracesTo : List IndexRow
  deriving Repr, DecidableEq

/-- `AggregatorV3.Unwind(txUnwindTo, stateLoad)`: streams the accounts and
then the storage history rows in `[txUnwindTo, math.MaxUint64)` (with
`MaxUint64 = 2^64 - 1`) into the ETL collector and loads the collected
pairs through `stateLoad` (the external collector is modelled as the list
of collected pairs, in collection order), then prunes the four inverted
indices over `[txUnwindTo, MaxUint64)` with row budget `MaxUint64`.  The
second component is the list of pairs handed to the loader. -/
def Unwind (txUnwindTo : Nat) (mdb : MdbState) :
    MdbState × List (List Nat × List Nat) :=
  ({ accountsHist := (pruneF txUnwindTo (2^64 - 1) mdb.accountsHist).1,
     storageHist := (pruneF txUnwindTo (2^64 - 1) mdb.storageHist).1,
     logAddrs := prune txUnwindTo (2^64 - 1) (2^64 - 1) mdb.logAddrs,
     logTopics := prune txUnwindTo (2^64 - 1) (2^64 - 1) mdb.logTopics,
     tracesFrom := prune txUnwindTo (2^64 - 1) (2^64 - 1) mdb.tracesFrom,
     tracesTo := prune txUnwindTo (2^64 - 1) (2^64 - 1) mdb.tracesTo },
   (pruneF txUnwindTo (2^64 - 1) mdb.accountsHist).2 ++
     (pruneF txUnwindTo (2^64 - 1) mdb.storageHist).2)

/-- With a row budget at least the table size, `prune` deletes exactly the
rows inside the window. -/
theorem prune_eq_filter (txFrom txTo limit : Nat) (rows : List IndexRow)
    (h : rows.length ≤ limit) :
    prune txFrom txTo limit rows =
      rows.filter (fun r => !(txFrom ≤ r.txNum && r.txNum < txTo)) := by
  induction rows generalizing limit with
  | nil => simp [prune]
  | cons r rs ih =>
    simp only [prune, List.length_cons] at h ⊢
    by_cases hr : txFrom ≤ r.txNum ∧ r.txNum < txTo
    · rw [if_pos hr, if_neg (by omega), ih (limit - 1) (by omega)]
      simp [List.filter_cons, hr]
    · rw [if_neg hr, ih limit (by omega)]
      simp only [List.filter_cons]
      have : ¬(txFrom ≤ r.txNum && r.txNum < txTo) = true := by
        simpa using hr
      simp [this]

/-- When every txNum is below `MaxUint64`, a `[t, MaxUint64)` window on
history rows degenerates to `t ≤ txNum` (kept side: `txNum < t`). -/
theorem histFilter_toMax (t : Nat) (rows : List HistoryRow)
    (h : ∀ r ∈ rows, r.txNum < 2^64 - 1) :
    (rows.filter (fun r => t ≤ r.txNum && r.txNum < 2^64 - 1) =
      rows.filter (fun r => t ≤ r.txNum)) ∧
    (rows.filter (fun r => !(t ≤ r.txNum && r.txNum < 2^64 - 1)) =
      rows.filter (fun r => r.txNum < t)) := by
  constructor
  · apply List.filter_congr
    intro r hr
    have h1 : r.txNum < 2^64 - 1 := h r hr
    rw [← Bool.decide_and, decide_eq_decide]
    omega
  · apply List.filter_congr
    intro r hr
    have h1 : r.txNum < 2^64 - 1 := h r hr
    rw [← Bool.decide_and, ← decide_not, decide_eq_decide]
    omega

/-- When every txNum is below `MaxUint64`, the rows an index keeps after a
`[t, MaxUint64)` prune are exactly those with `txNum < t`. -/
theorem idxFilter_toMax (t : Nat) (rows : List IndexRow)
    (h : ∀ r ∈ rows, r.txNum < 2^64 - 1) :
    rows.filter (fun r => !(t ≤ r.txNum && r.txNum < 2^64 - 1)) =
      rows.filter (fun r => r.txNum < t) := by
  apply List.filter_congr
  intro r hr
  have h1 : r.txNum < 2^64 - 1 := h r hr
  rw [← Bool.decide_and, ← decide_not, decide_eq_decide]
  omega

/-- C9: `Unwind(txUnwindTo, loader)` streams every accounts history row and
then every storage history row with `txNum ≥ txUnwindTo` through the
supplied loader, and deletes from each of the four inverted indices exactly
the MDB rows with `txNum ≥ txUnwindTo`.  (The hypotheses bound txNums and
row counts below the `MaxUint64` sentinel used as the exclusive window end
and the row budget.) -/
theorem claim_C9_unwind (txUnwindTo : Nat) (mdb : MdbState)
    (hacc : ∀ r ∈ mdb.accountsHist, r.txNum < 2^64 - 1)
    (hsto : ∀ r ∈ mdb.storageHist, r.txNum < 2^64 - 1)
    (hla : ∀ r ∈ mdb.logAddrs, r.txNum < 2^64 - 1)
    (hlt : ∀ r ∈ mdb.logTopics, r.txNum < 2^64 - 1)
    (htf : ∀ r ∈ mdb.tracesFrom, r.txNum < 2^64 - 1)
    (htt : ∀ r ∈ mdb.tracesTo, r.txNum < 2^64 - 1)
    (hlenla : mdb.logAddrs.length ≤ 2^64 - 1)
    (hlenlt : mdb.logTopics.length ≤ 2^64 - 1)
    (hlentf : mdb.tracesFrom.length ≤ 2^64 - 1)
    (hlentt : mdb.tracesTo.length ≤ 2^64 - 1) :
    (Unwind txUnwindTo mdb).2 =
      (mdb.accountsHist.filter (fun r => txUnwindTo ≤ r.txNum)).map
        (fun r => (r.k, r.v)) ++
      (mdb.storageHist.filter (fun r => txUnwindTo ≤ r.txNum)).map
        (fun r => (r.k, r.v)) ∧
    (Unwind txUnwindTo mdb).1.logAddrs =
      mdb.logAddrs.filter (fun r => r.txNum < txUnwindTo) ∧
    (Unwind txUnwindTo mdb).1.logTopics =
      mdb.logTopics.filter (fun r => r.txNum < txUnwindTo) ∧
    (Unwind txUnwindTo mdb).1.tracesFrom =
      mdb.tracesFrom.filter (fun r => r.txNum < txUnwindTo) ∧
    (Unwind txUnwindTo mdb).1.tracesTo =
      mdb.tracesTo.filter (fun r => r.txNum < txUnwindTo) := by
  refine ⟨?_, ?_, ?_, ?_, ?_⟩
  · show (pruneF _ _ _).2 ++ (pruneF _ _ _).2 = _
    simp only [pruneF]
    rw [(histFilter_toMax txUnwindTo mdb.accountsHist hacc).1,
        (histFilter_toMax txUnwindTo mdb.storageHist hsto).1]
  · show prune _ _ _ _ = _
    rw [prune_eq_filter _ _ _ _ hlenla, idxFilter_toMax _ _ hla]
  · show prune _ _ _ _ = _
    rw [prune_eq_filter _ _ _ _ hlenlt, idxFilter_toMax _ _ hlt]
  · show prune _ _ _ _ = _
    rw [prune_eq_filter _ _ _ _ hlentf, idxFilter_toMax _ _ htf]
  · show prune _ _ _ _ = _
    rw [prune_eq_filter _ _ _ _ hlentt, idxFilter_toMax _ _ htt]

/-- A concrete MDB for the C9 witness. -/
def sampleMdb : MdbState :=
  { accountsHist := [⟨5, [1], [2]⟩, ⟨1, [3], [4]⟩],
    storageHist := [⟨7, [5], [6]⟩],
    logAddrs := [⟨5, [9]⟩, ⟨1, [8]⟩],
    logTopics := [⟨4, [9]⟩],
    tracesFrom := [⟨2, [9]⟩],
    tracesTo := [⟨3, [9]⟩] }

/-- Witness for C9: unwinding `sampleMdb` to txNum 3. -/
theorem claim_C9_unwind_witness :
    (Unwind 3 sampleMdb).2 =
      (sampleMdb.accountsHist.filter (fun r => 3 ≤ r.txNum)).map
        (fun r => (r.k, r.v)) ++
      (sampleMdb.storageHist.filter (fun r => 3 ≤ r.txNum)).map
        (fun r => (r.k, r.v)) ∧
    (Unwind 3 sampleMdb).1.logAddrs =
      sampleMdb.logAddrs.filter (fun r => r.txNum < 3) ∧
    (Unwind 3 sampleMdb).1.logTopics =
      sampleMdb.logTopics.filter (fun r => r.txNum < 3) ∧
    (Unwind 3 sampleMdb).1.tracesFrom =
      sampleMdb.tracesFrom.filter (fun r => r.txNum < 3) ∧
    (Unwind 3 sampleMdb).1.tracesTo =
      sampleMdb.tracesTo.filter (fun r => r.txNum < 3) :=
  claim_C9_unwind 3 sampleMdb (by decide) (by decide) (by decide) (by decide)
    (by decide) (by decide) (by decide) (by decide) (by decide) (by decide)

end ErigonState
